import Mathlib

/-!
Verification of the rate-history / banding / notification engine of the
psa-caucion-bot repository.

The Lean definitions below are shallow embeddings of the Python sources:

* `src/scripts/generate_data.py` — `quantile`, `compute_percentiles`,
  `classify_band` (percentile bander of the dashboard generator);
* `src/caucion_alerta.py` — market-history store (`append_daily_close`,
  `avg_last_n`), the BALANCED decision (`classify_1d_zone`,
  `balanced_signal_1d`), and the per-user notification state machine of
  `main` (error flag, intraday open, one-shot super alert, 1d opportunity
  latch, daily digest, per-tenor threshold and premium latches).

Python floats are modelled as rationals (`ℚ`), `None`-able values as
`Option`, and the per-user persisted JSON state as the structure
`UserState`.  Machine messages are modelled as notification events
(`Notif`), not as rendered strings: the claims under verification are about
when a notification fires, never about its text.
-/

namespace Caucion

/-! ### generate_data.py — percentile bander -/

/-- Python `int()` truncation toward zero on a rational. -/
def pyInt (x : ℚ) : ℤ := if 0 ≤ x then ⌊x⌋ else ⌈x⌉

/-- Python `sorted(values)` for a list of rationals: the non-decreasing
permutation (insertion sort is extensionally the unique such list). -/
def sortQ (l : List ℚ) : List ℚ := List.insertionSort (· ≤ ·) l

/-- Embedding of `quantile(values, q)` (generate_data.py lines 52-63):
empty input gives `None`; a singleton gives its element; otherwise linear
interpolation at position `(len(v) - 1) * q` over the sorted list with
`lo = int(pos)`, `hi = min(lo + 1, len(v) - 1)`, `frac = pos - lo`.
In-range indexing `v[i]` is rendered as `getD i 0`; for `0 ≤ q ≤ 1` the
indices are proved in range. -/
def quantile (values : List ℚ) (q : ℚ) : Option ℚ :=
  if values = [] then none
  else
    let v := sortQ values
    if v.length = 1 then some (v.getD 0 0)
    else
      let pos : ℚ := ((v.length : ℚ) - 1) * q
      let lo : ℤ := pyInt pos
      let hi : ℤ := min (lo + 1) ((v.length : ℤ) - 1)
      let frac : ℚ := pos - (lo : ℚ)
      some (v.getD lo.toNat 0 * (1 - frac) + v.getD hi.toNat 0 * frac)

/-- Result dict of `compute_percentiles`: the three optional percentile
fields and the always-present sample count `n`. -/
structure Percentiles where
  p40 : Option ℚ
  p60 : Option ℚ
  p75 : Option ℚ
  n : Nat
deriving DecidableEq

/-- Embedding of `compute_percentiles(values)` (generate_data.py lines
65-74): fewer than 20 values yields only the count, otherwise the p40, p60
and p75 quantiles. -/
def compute_percentiles (values : List ℚ) : Percentiles :=
  if values.length < 20 then ⟨none, none, none, values.length⟩
  else ⟨quantile values (2/5), quantile values (3/5), quantile values (3/4),
        values.length⟩

/-- Embedding of `classify_band(tna, p)` (generate_data.py lines 76-87). -/
def classify_band (tna : Option ℚ) (p : Percentiles) : String :=
  match tna with
  | none => "N/A"
  | some t =>
    match p.p40, p.p60, p.p75 with
    | some a, some b, some c =>
        if c ≤ t then "EXCELENTE"
        else if b ≤ t then "BUENA"
        else if a ≤ t then "ACEPTABLE"
        else "BAJA"
    | _, _, _ => "SIN_HISTORICO"

/-- Rank of the ordered Band scale on the four percentile bands produced by
`classify_band` (spec §3: BAJA < ACEPTABLE < BUENA < EXCELENTE); every
other string is placed at the bottom. -/
def bandRank (b : String) : Nat :=
  if b = "EXCELENTE" then 3
  else if b = "BUENA" then 2
  else if b = "ACEPTABLE" then 1
  else 0

/-- Quantile written exactly as the spec phrases it (spec §4.2): position
`q·(n−1)` over the sorted values, linear interpolation between the two
bracketing order statistics, the exact order statistic when the position is
integral (then the `frac` weight of the upper index is zero). -/
def specQuantile (values : List ℚ) (q : ℚ) : Option ℚ :=
  if values = [] then none
  else
    let v := sortQ values
    let pos : ℚ := q * ((v.length : ℚ) - 1)
    let lo : ℕ := (⌊pos⌋).toNat
    let frac : ℚ := pos - ((⌊pos⌋ : ℤ) : ℚ)
    some ((1 - frac) * v.getD lo 0 + frac * v.getD (lo + 1) 0)

/-- Modelled from the spec: the static-fallback threshold classification
that claim C6 asserts `classify` performs when percentiles are missing
(spec §8 scenario thresholds: LOW < 35.5 ≤ MID < 38.0 ≤ HIGH). -/
def specFallbackClassify (v : ℚ) : String :=
  if (38 : ℚ) ≤ v then "HIGH"
  else if (71/2 : ℚ) ≤ v then "MID"
  else "LOW"

/-! ### caucion_alerta.py — configuration defaults (lines 16-56) -/

/-- Default of env `RED_BELOW` (35.5). -/
def RED_BELOW : ℚ := 71/2

/-- Default of env `YELLOW_BELOW` (37.0). -/
def YELLOW_BELOW : ℚ := 37

/-- Default of env `GREEN_FROM` (37.0); read by the config but unused by the
decision logic. -/
def GREEN_FROM : ℚ := 37

/-- Default of env `TOP_FROM` (40.0). -/
def TOP_FROM : ℚ := 40

/-- Default of env `INTRADAY_CONFIRM_PP` (0.8). -/
def INTRADAY_CONFIRM_PP : ℚ := 4/5

/-- Default of env `AVG_DAYS` (5). -/
def AVG_DAYS : Nat := 5

/-- Default of env `ABOVE_AVG_BONUS_PP` (0.3). -/
def ABOVE_AVG_BONUS_PP : ℚ := 3/10

/-- Default of env `TENORS` (1,7,14,30). -/
def TENORS : List Nat := [1, 7, 14, 30]

/-- The `THRESHOLDS` dict with its defaults, as accessed by
`THRESHOLDS.get(d, 0)`. -/
def THRESHOLDS (d : Nat) : ℚ :=
  if d = 1 then 38 else if d = 7 then 41 else if d = 14 then 42
  else if d = 30 then 43 else 0

/-- Default of env `PREMIUM_SPREAD` (3.0). -/
def PREMIUM_SPREAD : ℚ := 3

/-- Default of env `SUPER_HIGH` (45.0). -/
def SUPER_HIGH : ℚ := 45

/-- Default of env `DAILY_HOUR` (10). -/
def DAILY_HOUR : Nat := 10

/-! ### caucion_alerta.py — market history (lines 209-247) -/

/-- One entry of a tenor's list in `market_history.json`:
`{"date": day, "rate": r}`. -/
structure HistoryRecord where
  date : String
  rate : ℚ
deriving DecidableEq

/-- Python slice `arr[-n:]`.  Note `arr[-0:]` is the whole list, because
`-0 == 0` in Python; for `n ≥ 1` it is the last `min n (length arr)`
elements. -/
def pySliceLast (n : Nat) (arr : List α) : List α :=
  if n = 0 then arr else arr.drop (arr.length - n)

/-- Body of the per-tenor iteration of `append_daily_close`
(caucion_alerta.py lines 226-238): skip an absent rate, skip a day already
present for the tenor, otherwise append `{date, rate}` and keep only the
last 30 entries. -/
def appendTenor (arr : List HistoryRecord) (day : String) (r : Option ℚ) :
    List HistoryRecord :=
  match r with
  | none => arr
  | some v =>
      if arr.any (fun x => x.date = day) then arr
      else pySliceLast 30 (arr ++ [⟨day, v⟩])

/-- Embedding of `append_daily_close(hist, day, rates)` (lines 225-238);
the history dict keyed `tenor_{d}` is modelled as a function from the tenor
to its list. -/
def append_daily_close (hist : Nat → List HistoryRecord) (day : String)
    (rates : Nat → Option ℚ) : Nat → List HistoryRecord :=
  TENORS.foldl
    (fun h d => fun x => if x = d then appendTenor (h d) day (rates d) else h x)
    hist

/-- Embedding of `avg_last_n(hist, tenor, n)` (lines 240-247): `None` on an
empty list, otherwise the mean of the Python slice `arr[-n:]`. -/
def avg_last_n (hist : Nat → List HistoryRecord) (tenor : Nat) (n : Nat) :
    Option ℚ :=
  let arr := hist tenor
  if arr = [] then none
  else
    let last := pySliceLast n arr
    if last = [] then none
    else some ((last.map (fun x => x.rate)).sum / (last.length : ℚ))

/-- Modelled from the claim's words (C10): the average over the last `n`
stored entries of the tenor — the true last-`n` suffix, `none` when there
are no entries to average. -/
def avgLastNSpec (hist : Nat → List HistoryRecord) (tenor : Nat) (n : Nat) :
    Option ℚ :=
  let arr := hist tenor
  let last := arr.drop (arr.length - n)
  if last = [] then none
  else some ((last.map (fun x => x.rate)).sum / (last.length : ℚ))

/-- Concrete history used to evaluate `avg_last_n` at `n = 0`. -/
def histC10 : Nat → List HistoryRecord :=
  fun _ => [⟨"2026-01-01", 10⟩, ⟨"2026-01-02", 20⟩]

/-! ### caucion_alerta.py — BALANCED decision (lines 252-299) -/

/-- Embedding of `classify_1d_zone(rate_1d)` (lines 252-259). -/
def classify_1d_zone (rate_1d : ℚ) : String :=
  if rate_1d < RED_BELOW then "RED"
  else if rate_1d < YELLOW_BELOW then "YELLOW"
  else if TOP_FROM ≤ rate_1d then "TOP"
  else "GREEN"

/-- Embedding of the decision of `balanced_signal_1d(rate_1d, avg5_1d,
intraday_delta)` (lines 261-299).  The Python function also returns a
human-readable reason string which is interpolated into the message text;
only the boolean `should_alert` feeds control flow and state, so only it is
modelled. -/
def balanced_signal_1d (rate_1d : ℚ) (avg5_1d : Option ℚ)
    (intraday_delta : ℚ) : Bool :=
  let zone := classify_1d_zone rate_1d
  if zone = "RED" then false
  else if zone = "YELLOW" then false
  else if zone = "TOP" then true
  else
    let ok_context :=
      match avg5_1d with
      | none => decide (THRESHOLDS 1 ≤ rate_1d)
      | some a => decide (a + ABOVE_AVG_BONUS_PP ≤ rate_1d)
    let ok_intraday := decide (INTRADAY_CONFIRM_PP ≤ intraday_delta)
    ok_context || ok_intraday

/-! ### caucion_alerta.py — per-user notification state machine (main) -/

/-- The kinds of outbound notification the per-user loop of `main` can
emit.  Message text is external formatting; only the event matters here. -/
inductive Notif where
  | noData : Notif
  | super : Notif
  | opportunity1d : Notif
  | digest : Notif
  | threshold : Nat → Notif
  | premium : Nat → Notif
deriving DecidableEq

/-- The persisted per-user state file (`load_state`, lines 191-201).
`intraday` maps a date to its `(open, last)` pair; `crossedT d` is
`crossed["{d}d"]`, `crossed1d` is `crossed["1d_ok"]`, `premiumSent d` is
`premium_sent["{d}d"]`; absent keys default to `false`/`none`/`""` exactly
as `dict.get` does in the source.  The payday markers are omitted: the
payday reminder logic touches no field referenced by the verified claims
and emits only its own dated messages. -/
structure UserState where
  lastError : String
  intraday : String → Option (ℚ × ℚ)
  superSent : Bool
  crossed1d : Bool
  lastDaily : String
  crossedT : Nat → Bool
  premiumSent : Nat → Bool
  lastRates : Nat → Option ℚ

/-- The fresh-state defaults of `load_state` (lines 191-201). -/
def initialState : UserState where
  lastError := ""
  intraday := fun _ => none
  superSent := false
  crossed1d := false
  lastDaily := ""
  crossedT := fun _ => false
  premiumSent := fun _ => false
  lastRates := fun _ => none

/-- The per-run inputs the per-user loop consumes: the local hour and date
of `now`, the fetched rate per tenor, and `avg5_1d = avg_last_n(hist, 1,
AVG_DAYS)` computed from the shared market history. -/
structure RunInput where
  hour : Nat
  today : String
  rates : Nat → Option ℚ
  avg5 : Option ℚ

/-- The `best` scan of `main` (lines 485-488): first maximum of the present
rates in `TENORS` iteration order, strict comparison. -/
def bestRate (tenors : List Nat) (rates : Nat → Option ℚ) :
    Option (Nat × ℚ) :=
  tenors.foldl
    (fun best d =>
      match rates d, best with
      | none, b => b
      | some r, none => some (d, r)
      | some r, some p => if p.2 < r then some (d, r) else some p)
    none

/-- The super-opportunity trigger condition: some rate is present and the
best one reaches `SUPER_HIGH`. -/
def superCond (rates : Nat → Option ℚ) : Bool :=
  match bestRate TENORS rates with
  | some b => decide (SUPER_HIGH ≤ b.2)
  | none => false

/-- The one-shot super block of `main` (lines 483-491): fires only while
`super_sent` is unset and the best present rate reaches `SUPER_HIGH`;
returns (notified, new flag).  Nothing in the program ever writes `false`
back into the flag. -/
def superUpd (sent : Bool) (rates : Nat → Option ℚ) : Bool × Bool :=
  if sent then (false, sent)
  else
    match bestRate TENORS rates with
    | some b => if SUPER_HIGH ≤ b.2 then (true, true) else (false, sent)
    | none => (false, sent)

/-- The daily digest check of `main` (lines 512-515): fires only when the
hour equals `DAILY_HOUR` and `last_daily` differs from today; returns
(notified, new `last_daily`). -/
def digestUpd (hour : Nat) (today lastDaily : String) : Bool × String :=
  if hour = DAILY_HOUR ∧ lastDaily ≠ today then (true, today)
  else (false, lastDaily)

/-- One step of the per-tenor threshold latch of `main` (lines 523-534) for
one tenor with threshold `thr`: an absent rate leaves the flag untouched; a
present rate notifies exactly on the `false → true` transition of
`is_above` and always rewrites the flag to `is_above`. -/
def thresholdUpd (thr : ℚ) (flag : Bool) (r : Option ℚ) : Bool × Bool :=
  match r with
  | none => (false, flag)
  | some v => (decide (thr ≤ v) && !flag, decide (thr ≤ v))

/-- Pointwise update of a tenor-indexed flag table. -/
def updFlag (f : Nat → Bool) (d : Nat) (b : Bool) : Nat → Bool :=
  fun x => if x = d then b else f x

/-- Loop body of the threshold block (lines 523-534). -/
def thresholdFoldStep (rates : Nat → Option ℚ)
    (acc : List Notif × (Nat → Bool)) (d : Nat) :
    List Notif × (Nat → Bool) :=
  if d = 1 then acc
  else
    match rates d with
    | none => acc
    | some r =>
        let u := thresholdUpd (THRESHOLDS d) (acc.2 d) (some r)
        (acc.1 ++ (if u.1 then [Notif.threshold d] else []),
         updFlag acc.2 d u.2)

/-- The threshold block of `main` (lines 520-535): iterate the latch over
every non-1D tenor. -/
def thresholdFold (rates : Nat → Option ℚ) (crossed : Nat → Bool) :
    List Notif × (Nat → Bool) :=
  TENORS.foldl (thresholdFoldStep rates) ([], crossed)

/-- Loop body of the premium block (lines 538-551): latch on
`spread = r - r1 ≥ PREMIUM_SPREAD`. -/
def premiumFoldStep (r1 : ℚ) (rates : Nat → Option ℚ)
    (acc : List Notif × (Nat → Bool)) (d : Nat) :
    List Notif × (Nat → Bool) :=
  if d = 1 then acc
  else
    match rates d with
    | none => acc
    | some r =>
        let isP := decide (PREMIUM_SPREAD ≤ r - r1)
        (acc.1 ++ (if isP && !acc.2 d then [Notif.premium d] else []),
         updFlag acc.2 d isP)

/-- The premium block of `main` (lines 537-551). -/
def premiumFold (r1 : ℚ) (rates : Nat → Option ℚ) (sent : Nat → Bool) :
    List Notif × (Nat → Bool) :=
  TENORS.foldl (premiumFoldStep r1 rates) ([], sent)

/-- The 1d-opportunity latch of the BALANCED block (lines 499-510):
notify exactly on the `false → true` transition of `should_alert`, always
rewrite `crossed["1d_ok"]`. -/
def balancedUpd (flag : Bool) (inp : ℚ × Option ℚ × ℚ) : Bool × Bool :=
  let ok := balanced_signal_1d inp.1 inp.2.1 inp.2.2
  (ok && !flag, ok)

/-- One per-user iteration of `main` (lines 445-556) in PRO mode with the
BALANCED profile (the source's defaults, and the only profile the source
implements):

* missing 1D rate: emit the data-unavailable warning only when
  `last_error` is not already `"NO_1D"`, set the flag, and `continue` —
  nothing else runs, every other field is untouched (lines 457-463);
* otherwise clear `last_error`, record the intraday open/last pair for
  today, run the one-shot super block, the balanced opportunity latch, the
  daily digest check, the per-tenor threshold and premium latches, and
  store the present rates as `last_rates` (lines 464-556).

The payday block is omitted (see `UserState`). -/
def userStep (inp : RunInput) (st : UserState) : List Notif × UserState :=
  match inp.rates 1 with
  | none =>
      if st.lastError ≠ "NO_1D" then
        ([Notif.noData], { st with lastError := "NO_1D" })
      else ([], st)
  | some r1 =>
      let opn :=
        match st.intraday inp.today with
        | some oi => oi.1
        | none => r1
      let intr : String → Option (ℚ × ℚ) :=
        fun s => if s = inp.today then some (opn, r1) else st.intraday s
      let intraday_delta := r1 - opn
      let sres := superUpd st.superSent inp.rates
      let ok := balanced_signal_1d r1 inp.avg5 intraday_delta
      let bnotif := ok && !st.crossed1d
      let dres := digestUpd inp.hour inp.today st.lastDaily
      let tres := thresholdFold inp.rates st.crossedT
      let pres := premiumFold r1 inp.rates st.premiumSent
      ((if sres.1 then [Notif.super] else [])
         ++ (if bnotif then [Notif.opportunity1d] else [])
         ++ (if dres.1 then [Notif.digest] else [])
         ++ tres.1 ++ pres.1,
       { lastError := ""
         intraday := intr
         superSent := sres.2
         crossed1d := ok
         lastDaily := dres.2
         crossedT := tres.2
         premiumSent := pres.2
         lastRates := inp.rates })

/-- Iterate `userStep` over a sequence of runs, collecting the notification
list of each run. -/
def runTrace : List RunInput → UserState → List (List Notif)
  | [], _ => []
  | i :: is, st =>
      let r := userStep i st
      r.1 :: runTrace is r.2

/-- Iterate the per-tenor threshold latch over a sequence of observations
of one tenor, collecting whether each run notified. -/
def thresholdTrace (thr : ℚ) : Bool → List (Option ℚ) → List Bool
  | _, [] => []
  | flag, r :: rs =>
      let u := thresholdUpd thr flag r
      u.1 :: thresholdTrace thr u.2 rs

/-- Iterate the balanced 1d-opportunity latch over a sequence of
`(rate_1d, avg5, intraday_delta)` observations. -/
def balancedTrace : Bool → List (ℚ × Option ℚ × ℚ) → List Bool
  | _, [] => []
  | flag, i :: is =>
      let u := balancedUpd flag i
      u.1 :: balancedTrace u.2 is

/-- Iterate the daily digest check over the hours of a sequence of runs on
one fixed date. -/
def digestTrace (today : String) : String → List Nat → List Bool
  | _, [] => []
  | lastDaily, h :: hs =>
      let r := digestUpd h today lastDaily
      r.1 :: digestTrace today r.2 hs

/-- Total number of occurrences of one notification kind across the
notification lists of a sequence of runs. -/
def countNotif (m : Notif) (tss : List (List Notif)) : Nat :=
  (tss.map (fun ns => ns.count m)).sum

/-- Final persisted state after a sequence of runs. -/
def runEnd : List RunInput → UserState → UserState
  | [], st => st
  | i :: is, st => runEnd is (userStep i st).2

/-- Concrete fetch result: only the 1D rate, at 38. -/
def rates38only1 : Nat → Option ℚ := fun d => if d = 1 then some 38 else none

/-- Concrete fetch result: 1D at 38 and 7D at 50. -/
def rates38and50 : Nat → Option ℚ :=
  fun d => if d = 1 then some 38 else if d = 7 then some 50 else none

/-- Concrete fetch result: every tenor absent. -/
def ratesAbsent : Nat → Option ℚ := fun _ => none

/-- Concrete run: quiet morning run, only 1D present. -/
def runA : RunInput := ⟨9, "2026-01-05", rates38only1, none⟩

/-- Concrete run: 7D spikes to 50 (above `SUPER_HIGH`). -/
def runB : RunInput := ⟨9, "2026-01-05", rates38and50, none⟩

/-- Concrete run: scrape failed, all tenors absent. -/
def runN : RunInput := ⟨9, "2026-01-05", ratesAbsent, none⟩

/-! ### caucion_alerta.py — transport (lines 74-79) and its use in main -/

/-- Embedding of `send_message(chat_id, msg)` (lines 74-79) with the
transport outcome made explicit: an empty token or chat id returns
silently; otherwise `requests.post(...).raise_for_status()` raises on an
HTTP failure, i.e. the error propagates to the caller. -/
def send_message (token chatId : String) (httpOk : Bool) :
    Except String Unit :=
  if token = "" ∨ chatId = "" then Except.ok ()
  else if httpOk then Except.ok () else Except.error "HTTPError"

/-- The per-user loop of `main` on the path where the 1D rate is absent
(lines 445-463), with `send_message`'s exception propagation made explicit.
Each user is `(chat_id, last_error)`; the result is the list of chat ids
whose state file was saved, and the uncaught exception if one aborted the
loop.  `main` wraps no send in `try`, so an HTTP failure inside
`send_message` aborts the surrounding loop before `save_state`. -/
def runUsersAbsent1D (token : String) (httpOk : Bool) :
    List (String × String) → List String × Option String
  | [] => ([], none)
  | (chat, lastErr) :: rest =>
      if lastErr ≠ "NO_1D" then
        match send_message token chat httpOk with
        | Except.error e => ([], some e)
        | Except.ok _ =>
            let r := runUsersAbsent1D token httpOk rest
            (chat :: r.1, r.2)
      else runUsersAbsent1D token httpOk rest

/-! ### Helper lemmas -/

theorem sortQ_length (l : List ℚ) : (sortQ l).length = l.length :=
  (List.perm_insertionSort _ l).length_eq

theorem sortQ_sorted (l : List ℚ) : (sortQ l).Sorted (· ≤ ·) :=
  List.sorted_insertionSort (· ≤ ·) l

theorem sorted_getD_mono {v : List ℚ} (hs : v.Sorted (· ≤ ·)) {i j : ℕ}
    (hij : i ≤ j) (hj : j < v.length) : v.getD i 0 ≤ v.getD j 0 := by
  have hi : i < v.length := lt_of_le_of_lt hij hj
  rw [List.getD_eq_get _ _ hi, List.getD_eq_get _ _ hj]
  exact hs.rel_get_of_le (Fin.mk_le_mk.mpr hij)

theorem pyInt_of_nonneg {x : ℚ} (hx : 0 ≤ x) : pyInt x = ⌊x⌋ := if_pos hx

theorem sortQ_ne_nil {l : List ℚ} (hne : l ≠ []) : sortQ l ≠ [] := by
  intro h
  apply hne
  have hl := sortQ_length l
  rw [h] at hl
  exact List.length_eq_zero.mp hl.symm

/-- The code's quantile agrees with the spec's linear-interpolation
formula on every non-empty input and every `q ∈ [0, 1]`. -/
theorem quantile_spec_eq (values : List ℚ) (q : ℚ)
    (hne : values ≠ []) (h0 : 0 ≤ q) (h1 : q ≤ 1) :
    quantile values q = specQuantile values q := by
  have hvne : sortQ values ≠ [] := sortQ_ne_nil hne
  simp only [quantile, specQuantile, if_neg hne]
  set v := sortQ values with hv
  have hvlen : 1 ≤ v.length := List.length_pos.mpr hvne
  by_cases hone : v.length = 1
  · rw [if_pos hone, hone]
    norm_num
  · rw [if_neg hone]
    rw [mul_comm q ((v.length : ℚ) - 1)]
    have hn2 : 2 ≤ v.length := by omega
    have hnQ : (1 : ℚ) ≤ (v.length : ℚ) - 1 := by
      have h2 : (2 : ℚ) ≤ (v.length : ℚ) := by exact_mod_cast hn2
      linarith
    set pos : ℚ := ((v.length : ℚ) - 1) * q with hposdef
    have hpos0 : 0 ≤ pos := mul_nonneg (by linarith) h0
    have hposle : pos ≤ (v.length : ℚ) - 1 := by
      calc pos ≤ ((v.length : ℚ) - 1) * 1 :=
            mul_le_mul_of_nonneg_left h1 (by linarith)
        _ = (v.length : ℚ) - 1 := mul_one _
    rw [pyInt_of_nonneg hpos0]
    have hfl0 : 0 ≤ ⌊pos⌋ := Int.floor_nonneg.mpr hpos0
    have hflle : ⌊pos⌋ ≤ (v.length : ℤ) - 1 := by
      have h := Int.floor_le_floor hposle
      rwa [show ((v.length : ℚ) - 1) = (((v.length : ℤ) - 1 : ℤ) : ℚ) by push_cast; ring,
        Int.floor_intCast] at h
    rcases lt_or_eq_of_le hflle with hlt | heq
    · have hmin : min (⌊pos⌋ + 1) ((v.length : ℤ) - 1) = ⌊pos⌋ + 1 :=
        min_eq_left (by omega)
      rw [hmin]
      have htn : (⌊pos⌋ + 1).toNat = ⌊pos⌋.toNat + 1 := by omega
      rw [htn]
      congr 1
      ring
    · have hmin : min (⌊pos⌋ + 1) ((v.length : ℤ) - 1) = (v.length : ℤ) - 1 :=
        min_eq_right (by omega)
      have hposeq : pos = (v.length : ℚ) - 1 := by
        have hfle := Int.floor_le pos
        rw [heq] at hfle
        push_cast at hfle
        linarith
      have hfrac : pos - ((((v.length : ℤ) - 1 : ℤ)) : ℚ) = 0 := by
        rw [hposeq]
        push_cast
        ring
      rw [hmin, heq, hfrac]
      norm_num

/-- C4: for every non-empty list and every `q ∈ [0, 1]`, `quantile` is the
spec's inclusive linear-interpolation quantile (value at position
`q·(n−1)` over the sorted list, interpolating the bracketing order
statistics), and `compute_percentiles` emits exactly this function at
`q = 0.40, 0.60, 0.75` whenever it emits percentiles at all. -/
theorem c4_quantile_is_spec_interpolation (values : List ℚ) (q : ℚ)
    (hne : values ≠ []) (h0 : 0 ≤ q) (h1 : q ≤ 1) :
    quantile values q = specQuantile values q ∧
    (20 ≤ values.length →
      (compute_percentiles values).p40 = quantile values (2/5) ∧
      (compute_percentiles values).p60 = quantile values (3/5) ∧
      (compute_percentiles values).p75 = quantile values (3/4)) := by
  refine ⟨quantile_spec_eq values q hne h0 h1, fun h20 => ?_⟩
  rw [compute_percentiles, if_neg (by omega)]
  exact ⟨rfl, rfl, rfl⟩

/-- Witness for C4 at a concrete input. -/
theorem c4_witness :
    quantile (List.replicate 20 (37:ℚ)) (1/2)
      = specQuantile (List.replicate 20 (37:ℚ)) (1/2) ∧
    (compute_percentiles (List.replicate 20 (37:ℚ))).p40
      = quantile (List.replicate 20 (37:ℚ)) (2/5) := by
  have h := c4_quantile_is_spec_interpolation (List.replicate 20 (37:ℚ)) (1/2)
    (by simp) (by norm_num) (by norm_num)
  exact ⟨h.1, (h.2 (by simp)).1⟩

/-- Linear interpolation over a sorted list, in the exact shape produced by
unfolding `quantile`, is monotone in the position. -/
theorem interp_mono (v : List ℚ) (hs : v.Sorted (· ≤ ·)) {p1 p2 : ℚ}
    (hp1 : 0 ≤ p1) (h12 : p1 ≤ p2) (hp2 : p2 ≤ (v.length : ℚ) - 1) :
    v.getD (pyInt p1).toNat 0 * (1 - (p1 - ((pyInt p1 : ℤ) : ℚ))) +
      v.getD (min (pyInt p1 + 1) ((v.length : ℤ) - 1)).toNat 0 *
        (p1 - ((pyInt p1 : ℤ) : ℚ)) ≤
    v.getD (pyInt p2).toNat 0 * (1 - (p2 - ((pyInt p2 : ℤ) : ℚ))) +
      v.getD (min (pyInt p2 + 1) ((v.length : ℤ) - 1)).toNat 0 *
        (p2 - ((pyInt p2 : ℤ) : ℚ)) := by
  have hp20 : 0 ≤ p2 := le_trans hp1 h12
  rw [pyInt_of_nonneg hp1, pyInt_of_nonneg hp20]
  have hnQ : (1 : ℚ) ≤ (v.length : ℚ) := by linarith
  have hn1 : 1 ≤ v.length := by exact_mod_cast hnQ
  have hl10 : 0 ≤ ⌊p1⌋ := Int.floor_nonneg.mpr hp1
  have hl20 : 0 ≤ ⌊p2⌋ := Int.floor_nonneg.mpr hp20
  have hl12 : ⌊p1⌋ ≤ ⌊p2⌋ := Int.floor_le_floor h12
  have hl2le : ⌊p2⌋ ≤ (v.length : ℤ) - 1 := by
    have h := Int.floor_le_floor hp2
    rwa [show ((v.length : ℚ) - 1) = (((v.length : ℤ) - 1 : ℤ) : ℚ) by push_cast; ring,
      Int.floor_intCast] at h
  have hl1le : ⌊p1⌋ ≤ (v.length : ℤ) - 1 := le_trans hl12 hl2le
  have hf1a : ((⌊p1⌋ : ℤ) : ℚ) ≤ p1 := Int.floor_le p1
  have hf1b : p1 < ((⌊p1⌋ : ℤ) : ℚ) + 1 := Int.lt_floor_add_one p1
  have hf2a : ((⌊p2⌋ : ℤ) : ℚ) ≤ p2 := Int.floor_le p2
  have hm1 : (min (⌊p1⌋ + 1) ((v.length : ℤ) - 1)).toNat < v.length := by omega
  have hm2 : (min (⌊p2⌋ + 1) ((v.length : ℤ) - 1)).toNat < v.length := by omega
  have hi2 : ⌊p2⌋.toNat < v.length := by omega
  have hAB1 : v.getD ⌊p1⌋.toNat 0 ≤
      v.getD (min (⌊p1⌋ + 1) ((v.length : ℤ) - 1)).toNat 0 :=
    sorted_getD_mono hs (by omega) hm1
  have hAB2 : v.getD ⌊p2⌋.toNat 0 ≤
      v.getD (min (⌊p2⌋ + 1) ((v.length : ℤ) - 1)).toNat 0 :=
    sorted_getD_mono hs (by omega) hm2
  rcases eq_or_lt_of_le hl12 with heq | hlt
  · rw [← heq]
    have hfr : 0 ≤ 1 - (p1 - ((⌊p1⌋ : ℤ) : ℚ)) := by linarith
    nlinarith [mul_nonneg (sub_nonneg.mpr h12) (sub_nonneg.mpr hAB1)]
  · have hstep1 : v.getD ⌊p1⌋.toNat 0 * (1 - (p1 - ((⌊p1⌋ : ℤ) : ℚ))) +
        v.getD (min (⌊p1⌋ + 1) ((v.length : ℤ) - 1)).toNat 0 *
          (p1 - ((⌊p1⌋ : ℤ) : ℚ)) ≤
        v.getD (min (⌊p1⌋ + 1) ((v.length : ℤ) - 1)).toNat 0 := by
      nlinarith [mul_nonneg (show (0:ℚ) ≤ 1 - (p1 - ((⌊p1⌋ : ℤ) : ℚ)) by linarith)
        (sub_nonneg.mpr hAB1)]
    have hstep2 : v.getD (min (⌊p1⌋ + 1) ((v.length : ℤ) - 1)).toNat 0 ≤
        v.getD ⌊p2⌋.toNat 0 :=
      sorted_getD_mono hs (by omega) hi2
    have hstep3 : v.getD ⌊p2⌋.toNat 0 ≤
        v.getD ⌊p2⌋.toNat 0 * (1 - (p2 - ((⌊p2⌋ : ℤ) : ℚ))) +
          v.getD (min (⌊p2⌋ + 1) ((v.length : ℤ) - 1)).toNat 0 *
            (p2 - ((⌊p2⌋ : ℤ) : ℚ)) := by
      nlinarith [mul_nonneg (show (0:ℚ) ≤ p2 - ((⌊p2⌋ : ℤ) : ℚ) by linarith)
        (sub_nonneg.mpr hAB2)]
    linarith

/-- For `0 ≤ q1 ≤ q2 ≤ 1` and a non-empty input, the code's quantile at
`q1` is at most the one at `q2`. -/
theorem quantile_le_quantile (values : List ℚ) (hne : values ≠ [])
    (q1 q2 : ℚ) (h0 : 0 ≤ q1) (h12 : q1 ≤ q2) (h21 : q2 ≤ 1) :
    ∃ a b, quantile values q1 = some a ∧ quantile values q2 = some b ∧
      a ≤ b := by
  have hvne : sortQ values ≠ [] := sortQ_ne_nil hne
  have hsort := sortQ_sorted values
  simp only [quantile, if_neg hne]
  set v := sortQ values with hv
  have hvlen : 1 ≤ v.length := List.length_pos.mpr hvne
  by_cases hone : v.length = 1
  · simp only [if_pos hone]
    exact ⟨_, _, rfl, rfl, le_refl _⟩
  · simp only [if_neg hone]
    refine ⟨_, _, rfl, rfl, ?_⟩
    have hn2 : 2 ≤ v.length := by omega
    have hnQ : (1 : ℚ) ≤ (v.length : ℚ) - 1 := by
      have h2 : (2 : ℚ) ≤ (v.length : ℚ) := by exact_mod_cast hn2
      linarith
    exact interp_mono v hsort (mul_nonneg (by linarith) h0)
      (mul_le_mul_of_nonneg_left h12 (by linarith))
      (by calc ((v.length : ℚ) - 1) * q2 ≤ ((v.length : ℚ) - 1) * 1 :=
            mul_le_mul_of_nonneg_left h21 (by linarith)
          _ = (v.length : ℚ) - 1 := mul_one _)

/-- C5: whenever `compute_percentiles` has enough points, its percentile
fields satisfy p40 ≤ p60 ≤ p75, and for a fixed snapshot with percentiles
present, `classify_band` is monotone non-decreasing in the value with
respect to the band order. -/
theorem c5_percentiles_and_classify_monotone (values : List ℚ)
    (hlen : 20 ≤ values.length) (p : Percentiles) (a b c : ℚ)
    (hp40 : p.p40 = some a) (hp60 : p.p60 = some b) (hp75 : p.p75 = some c)
    (t1 t2 : ℚ) (ht : t1 ≤ t2) :
    (∃ x y z, (compute_percentiles values).p40 = some x ∧
      (compute_percentiles values).p60 = some y ∧
      (compute_percentiles values).p75 = some z ∧ x ≤ y ∧ y ≤ z) ∧
    bandRank (classify_band (some t1) p) ≤
      bandRank (classify_band (some t2) p) := by
  constructor
  · have hne : values ≠ [] := by
      intro h
      rw [h] at hlen
      simp at hlen
    obtain ⟨x, y, hx, hy, hxy⟩ :=
      quantile_le_quantile values hne (2/5) (3/5) (by norm_num) (by norm_num)
        (by norm_num)
    obtain ⟨y2, z, hy2, hz, hyz⟩ :=
      quantile_le_quantile values hne (3/5) (3/4) (by norm_num) (by norm_num)
        (by norm_num)
    have hyy : y = y2 := by
      rw [hy] at hy2
      exact Option.some.inj hy2
    subst hyy
    have hcp40 : (compute_percentiles values).p40 = quantile values (2/5) := by
      rw [compute_percentiles, if_neg (by omega)]
    have hcp60 : (compute_percentiles values).p60 = quantile values (3/5) := by
      rw [compute_percentiles, if_neg (by omega)]
    have hcp75 : (compute_percentiles values).p75 = quantile values (3/4) := by
      rw [compute_percentiles, if_neg (by omega)]
    exact ⟨x, y, z, by rw [hcp40, hx], by rw [hcp60, hy], by rw [hcp75, hz],
      hxy, hyz⟩
  · simp only [classify_band, hp40, hp60, hp75]
    split_ifs <;> first | decide | (exfalso; linarith)

/-- Witness for C5 at a concrete snapshot and pair of values. -/
theorem c5_witness :
    bandRank (classify_band (some 1) ⟨some 36, some 37, some 38, 20⟩) ≤
      bandRank (classify_band (some 2) ⟨some 36, some 37, some 38, 20⟩) :=
  (c5_percentiles_and_classify_monotone (List.replicate 20 (37:ℚ)) (by simp)
    ⟨some 36, some 37, some 38, 20⟩ 36 37 38 rfl rfl rfl 1 2 (by norm_num)).2

/-- C6 counterexample: with fewer than `min_points` values the snapshot
carries no percentiles, but `classify_band` does NOT fall back to static
thresholds — it returns the distinguished value `"SIN_HISTORICO"` for
every value (39.0 and 0 alike), whereas the spec's static fallback
classifies 39.0 as HIGH. -/
theorem c6_counterexample :
    classify_band (some 39) (compute_percentiles [36, 37, 38, 40, 36])
      = "SIN_HISTORICO" ∧
    classify_band (some 0) (compute_percentiles [36, 37, 38, 40, 36])
      = classify_band (some 39) (compute_percentiles [36, 37, 38, 40, 36]) ∧
    specFallbackClassify 39 = "HIGH" ∧
    ("SIN_HISTORICO" : String) ≠ "HIGH" := by
  refine ⟨by decide, by decide, ?_, by decide⟩
  norm_num [specFallbackClassify]

/-- C6 (amended): below `min_points` the snapshot carries only the sample
count, and `classify_band` then returns the distinguished same-type value
`"SIN_HISTORICO"` for every present value (and `"N/A"` for an absent one);
it does not consult static thresholds — the static-threshold
classification lives separately in the bot's `classify_1d_zone`. -/
theorem c6_insufficient_history (values : List ℚ)
    (hlen : values.length < 20) (t : ℚ) :
    compute_percentiles values = ⟨none, none, none, values.length⟩ ∧
    classify_band (some t) (compute_percentiles values) = "SIN_HISTORICO" ∧
    classify_band none (compute_percentiles values) = "N/A" := by
  have hcp : compute_percentiles values = ⟨none, none, none, values.length⟩ := by
    rw [compute_percentiles, if_pos hlen]
  exact ⟨hcp, by rw [hcp]; rfl, by rw [hcp]; rfl⟩

/-- Witness for C6 at a concrete short history. -/
theorem c6_witness :
    compute_percentiles [(37:ℚ)] = ⟨none, none, none, 1⟩ ∧
    classify_band (some 39) (compute_percentiles [(37:ℚ)]) = "SIN_HISTORICO" ∧
    classify_band none (compute_percentiles [(37:ℚ)]) = "N/A" :=
  c6_insufficient_history [37] (by decide) 39

/-! ### Latch traces (C1) -/

theorem thresholdTrace_sent (thr : ℚ) (rs : List (Option ℚ))
    (hall : ∀ w : ℚ, some w ∈ rs → thr ≤ w) :
    thresholdTrace thr true rs = rs.map fun _ => false := by
  induction rs with
  | nil => rfl
  | cons r rs ih =>
      cases r with
      | none =>
          show false :: thresholdTrace thr true rs
            = false :: (rs.map fun _ => false)
          rw [ih (fun w hw => hall w (List.mem_cons_of_mem _ hw))]
      | some w =>
          have hw : thr ≤ w := hall w (List.mem_cons_self _ _)
          have hd : decide (thr ≤ w) = true := decide_eq_true hw
          show (decide (thr ≤ w) && !true) ::
              thresholdTrace thr (decide (thr ≤ w)) rs
            = false :: (rs.map fun _ => false)
          rw [hd]
          show false :: thresholdTrace thr true rs = _
          rw [ih (fun w hw => hall w (List.mem_cons_of_mem _ hw))]

theorem thresholdTrace_pre (thr : ℚ) (pre rest : List (Option ℚ))
    (hpre : ∀ w : ℚ, some w ∈ pre → ¬ thr ≤ w) :
    thresholdTrace thr false (pre ++ rest)
      = (pre.map fun _ => false) ++ thresholdTrace thr false rest := by
  induction pre with
  | nil => rfl
  | cons r pre ih =>
      cases r with
      | none =>
          show false :: thresholdTrace thr false (pre ++ rest)
            = false :: ((pre.map fun _ => false) ++ thresholdTrace thr false rest)
          rw [ih (fun w hw => hpre w (List.mem_cons_of_mem _ hw))]
      | some w =>
          have hw : ¬ thr ≤ w := hpre w (List.mem_cons_self _ _)
          have hd : decide (thr ≤ w) = false := decide_eq_false hw
          show (decide (thr ≤ w) && !false) ::
              thresholdTrace thr (decide (thr ≤ w)) (pre ++ rest)
            = false :: ((pre.map fun _ => false) ++ thresholdTrace thr false rest)
          rw [hd]
          show false :: thresholdTrace thr false (pre ++ rest) = _
          rw [ih (fun w hw => hpre w (List.mem_cons_of_mem _ hw))]

theorem balancedTrace_sent (is : List (ℚ × Option ℚ × ℚ))
    (hall : ∀ x ∈ is, balanced_signal_1d x.1 x.2.1 x.2.2 = true) :
    balancedTrace true is = is.map fun _ => false := by
  induction is with
  | nil => rfl
  | cons i is ih =>
      have hi := hall i (List.mem_cons_self _ _)
      show (balanced_signal_1d i.1 i.2.1 i.2.2 && !true) ::
          balancedTrace (balanced_signal_1d i.1 i.2.1 i.2.2) is
        = false :: (is.map fun _ => false)
      rw [hi]
      show false :: balancedTrace true is = _
      rw [ih (fun x hx => hall x (List.mem_cons_of_mem _ hx))]

theorem balancedTrace_pre (bpre rest : List (ℚ × Option ℚ × ℚ))
    (hpre : ∀ x ∈ bpre, balanced_signal_1d x.1 x.2.1 x.2.2 = false) :
    balancedTrace false (bpre ++ rest)
      = (bpre.map fun _ => false) ++ balancedTrace false rest := by
  induction bpre with
  | nil => rfl
  | cons i bpre ih =>
      have hi := hpre i (List.mem_cons_self _ _)
      show (balanced_signal_1d i.1 i.2.1 i.2.2 && !false) ::
          balancedTrace (balanced_signal_1d i.1 i.2.1 i.2.2) (bpre ++ rest)
        = false :: ((bpre.map fun _ => false) ++ balancedTrace false rest)
      rw [hi]
      show false :: balancedTrace false (bpre ++ rest) = _
      rw [ih (fun x hx => hpre x (List.mem_cons_of_mem _ hx))]

/-- C1: for both per-tenor latches of the state machine — the threshold
latch (`crossed["{d}d"]`) and the balanced opportunity latch
(`crossed["1d_ok"]`) — when the alert-worthy condition first becomes true
and then keeps holding over consecutive runs, the notification fires
exactly once, on that first run; absent or condition-false earlier runs
fire nothing; and the persisted flag is rewritten on every run with a
present observation regardless of whether a notification fired. -/
theorem c1_latch_fires_once (thr v : ℚ) (pre post : List (Option ℚ))
    (hpre : ∀ w : ℚ, some w ∈ pre → ¬ thr ≤ w) (hv : thr ≤ v)
    (hpost : ∀ w : ℚ, some w ∈ post → thr ≤ w)
    (bpre bpost : List (ℚ × Option ℚ × ℚ)) (bi : ℚ × Option ℚ × ℚ)
    (hbpre : ∀ x ∈ bpre, balanced_signal_1d x.1 x.2.1 x.2.2 = false)
    (hbi : balanced_signal_1d bi.1 bi.2.1 bi.2.2 = true)
    (hbpost : ∀ x ∈ bpost, balanced_signal_1d x.1 x.2.1 x.2.2 = true) :
    thresholdTrace thr false (pre ++ some v :: post)
        = (pre.map fun _ => false) ++ true :: (post.map fun _ => false) ∧
    (∀ (flag : Bool) (w : ℚ),
        (thresholdUpd thr flag (some w)).2 = decide (thr ≤ w)) ∧
    balancedTrace false (bpre ++ bi :: bpost)
        = (bpre.map fun _ => false) ++ true :: (bpost.map fun _ => false) ∧
    (∀ (flag : Bool) (x : ℚ × Option ℚ × ℚ),
        (balancedUpd flag x).2 = balanced_signal_1d x.1 x.2.1 x.2.2) := by
  refine ⟨?_, fun flag w => rfl, ?_, fun flag x => rfl⟩
  · rw [thresholdTrace_pre thr pre _ hpre]
    congr 1
    have hd : decide (thr ≤ v) = true := decide_eq_true hv
    show (decide (thr ≤ v) && !false) ::
        thresholdTrace thr (decide (thr ≤ v)) post
      = true :: (post.map fun _ => false)
    rw [hd]
    show true :: thresholdTrace thr true post = _
    rw [thresholdTrace_sent thr post hpost]
  · rw [balancedTrace_pre bpre _ hbpre]
    congr 1
    show (balanced_signal_1d bi.1 bi.2.1 bi.2.2 && !false) ::
        balancedTrace (balanced_signal_1d bi.1 bi.2.1 bi.2.2) bpost
      = true :: (bpost.map fun _ => false)
    rw [hbi]
    show true :: balancedTrace true bpost = _
    rw [balancedTrace_sent bpost hbpost]

/-- Witness for C1 on concrete streaks: the 7D threshold latch (41.0) over
runs (absent, 42, 43) fires only on the middle run; the balanced latch over
a YELLOW-zone run then two TOP-zone runs fires only on the first TOP run. -/
theorem c1_witness :
    thresholdTrace 41 false [none, some 42, some 43] = [false, true, false] ∧
    balancedTrace false [(36, none, 0), (41, none, 0), (42, none, 0)]
      = [false, true, false] := by
  have h := c1_latch_fires_once 41 42 [none] [some 43]
    (by intro w hw; simp at hw)
    (by norm_num)
    (by intro w hw; simp at hw; subst hw; norm_num)
    [(36, none, 0)] [(42, none, 0)] (41, none, 0)
    (by
      intro x hx
      simp at hx
      subst hx
      norm_num [balanced_signal_1d, classify_1d_zone, RED_BELOW, YELLOW_BELOW,
        TOP_FROM] <;> decide)
    (by
      norm_num [balanced_signal_1d, classify_1d_zone, RED_BELOW, YELLOW_BELOW,
        TOP_FROM] <;> decide)
    (by
      intro x hx
      simp at hx
      subst hx
      norm_num [balanced_signal_1d, classify_1d_zone, RED_BELOW, YELLOW_BELOW,
        TOP_FROM] <;> decide)
  exact ⟨by simpa using h.1, by simpa using h.2.2.1⟩

/-! ### Digest (C7) -/

theorem digestUpd_done (h : Nat) (today : String) :
    digestUpd h today today = (false, today) := by
  simp [digestUpd]

theorem digestUpd_skip {h : Nat} (hne : h ≠ DAILY_HOUR)
    (today lastD : String) : digestUpd h today lastD = (false, lastD) := by
  rw [digestUpd, if_neg]
  intro hc
  exact hne hc.1

theorem digestTrace_done (today : String) (hs : List Nat) :
    digestTrace today today hs = hs.map fun _ => false := by
  induction hs with
  | nil => rfl
  | cons h hs ih =>
      simp only [digestTrace, List.map_cons]
      rw [digestUpd_done]
      show false :: digestTrace today today hs = _
      rw [ih]

theorem digestTrace_skip (today lastD : String) (pre rest : List Nat)
    (hpre : ∀ h ∈ pre, h ≠ DAILY_HOUR) :
    digestTrace today lastD (pre ++ rest)
      = (pre.map fun _ => false) ++ digestTrace today lastD rest := by
  induction pre with
  | nil => rfl
  | cons h pre ih =>
      simp only [List.cons_append, digestTrace, List.map_cons]
      rw [digestUpd_skip (hpre h (List.mem_cons_self _ _)) today lastD]
      show false :: digestTrace today lastD (pre ++ rest) = _
      rw [ih (fun x hx => hpre x (List.mem_cons_of_mem _ hx))]

/-- C7 counterexample: two runs on the same fresh day at hours 11 and 12 —
both at/after the configured digest hour (10) — emit NO digest at all,
because the code's check is `hour == DAILY_HOUR`, not `hour >= DAILY_HOUR`;
the claim's "exactly once" fails on this input. -/
theorem c7_counterexample :
    DAILY_HOUR ≤ 11 ∧ DAILY_HOUR ≤ 12 ∧ ("" : String) ≠ "2026-01-05" ∧
    digestTrace "2026-01-05" "" [11, 12] = [false, false] := by
  refine ⟨by decide, by decide, by decide, by decide⟩

/-- C7 (amended): among same-day runs the digest fires exactly on the first
run whose hour EQUALS the configured digest hour (runs merely at/after the
hour do not qualify); that run records the date in `last_daily`, and every
later run on that date — whatever its hour — emits no second digest. -/
theorem c7_digest_once_per_day (today lastD : String) (pre post : List Nat)
    (hD : lastD ≠ today) (hpre : ∀ h ∈ pre, h ≠ DAILY_HOUR) :
    digestTrace today lastD (pre ++ DAILY_HOUR :: post)
      = (pre.map fun _ => false) ++ true :: (post.map fun _ => false) := by
  rw [digestTrace_skip today lastD pre _ hpre]
  congr 1
  simp only [digestTrace]
  rw [show digestUpd DAILY_HOUR today lastD = (true, today) from
    by rw [digestUpd, if_pos ⟨rfl, hD⟩]]
  show true :: digestTrace today today post = _
  rw [digestTrace_done today post]

/-- Witness for C7: hours 9, 11, 10, 10, 23 on one day fire the digest
exactly on the first run at hour 10. -/
theorem c7_witness :
    digestTrace "2026-01-05" "" ([9, 11] ++ DAILY_HOUR :: [10, 23])
      = [false, false, true, false, false] := by
  have h := c7_digest_once_per_day "2026-01-05" "" [9, 11] [10, 23]
    (by decide) (by decide)
  simpa using h

/-! ### History store (C2, C10) -/

/-- C2 counterexample: the store already holds a record for the same day
with value 37; a new sample for that day with value 40 — NOT numerically
equal within epsilon — is still rejected (the list is unchanged), because
`append_daily_close` dedups by date alone, never comparing values. -/
theorem c2_counterexample :
    appendTenor [⟨"2026-01-01", 37⟩] "2026-01-01" (some 40)
      = [⟨"2026-01-01", 37⟩] ∧
    ¬ (|(37 : ℚ) - 40| ≤ 1/1000000) := by
  constructor
  · rfl
  · rw [show |(37 : ℚ) - 40| = 3 by rw [abs_of_nonpos (by norm_num)]; norm_num]
    norm_num

/-- C2 (amended): `append_daily_close` rejects a new sample iff a record
with the same date already exists for that tenor, regardless of either
value; hence appending a sample for a fresh day stores exactly one record
for that date, and a second append for the same day (with any value) is
rejected, leaving the store unchanged. -/
theorem c2_dedup_by_date (arr : List HistoryRecord) (day : String) (v w : ℚ)
    (hnew : arr.any (fun x => x.date = day) = false) :
    (appendTenor arr day (some v)).countP (fun x => x.date = day) = 1 ∧
    appendTenor (appendTenor arr day (some v)) day (some w)
      = appendTenor arr day (some v) ∧
    (∀ arr2 : List HistoryRecord, arr2.any (fun x => x.date = day) = true →
      appendTenor arr2 day (some w) = arr2) := by
  have hreject : ∀ (arr2 : List HistoryRecord) (u : ℚ),
      arr2.any (fun x => x.date = day) = true →
      appendTenor arr2 day (some u) = arr2 := by
    intro arr2 u h2
    simp only [appendTenor]
    rw [if_pos h2]
  have happ : appendTenor arr day (some v)
      = pySliceLast 30 (arr ++ [⟨day, v⟩]) := by
    simp only [appendTenor]
    rw [if_neg (by rw [hnew]; exact Bool.false_ne_true)]
  have hcount : (appendTenor arr day (some v)).countP
      (fun x => x.date = day) = 1 := by
    rw [happ, pySliceLast, if_neg (by omega)]
    have hk : (arr ++ [(⟨day, v⟩ : HistoryRecord)]).length - 30 ≤ arr.length := by
      simp only [List.length_append, List.length_cons, List.length_nil]
      omega
    rw [List.drop_append_of_le_length hk, List.countP_append]
    have hz : (arr.drop ((arr ++ [(⟨day, v⟩ : HistoryRecord)]).length - 30)).countP
        (fun x => x.date = day) = 0 := by
      have hz0 : arr.countP (fun x => x.date = day) = 0 := by
        rw [List.countP_eq_zero]
        rw [List.any_eq_false] at hnew
        exact hnew
      have hle := (List.drop_sublist
        ((arr ++ [(⟨day, v⟩ : HistoryRecord)]).length - 30) arr).countP_le
        (p := fun x => decide (x.date = day))
      omega
    rw [hz]
    simp
  refine ⟨hcount, ?_, fun arr2 h2 => hreject arr2 w h2⟩
  apply hreject
  rw [List.any_eq_true]
  have hpos : 0 < (appendTenor arr day (some v)).countP
      (fun x => x.date = day) := by omega
  exact List.countP_pos_iff.mp hpos

/-- Witness for C2: appending value 37 for a fresh day stores exactly one
record for that date, and a same-day re-append with value 40 is rejected. -/
theorem c2_witness :
    (appendTenor [] "2026-01-02" (some 37)).countP
      (fun x => x.date = "2026-01-02") = 1 ∧
    appendTenor (appendTenor [] "2026-01-02" (some 37)) "2026-01-02"
      (some 40) = appendTenor [] "2026-01-02" (some 37) := by
  have h := c2_dedup_by_date [] "2026-01-02" 37 40 rfl
  exact ⟨h.1, h.2.1⟩

/-- C10 counterexample: `avg_last_n` with `n = 0` does not average "at most
the last 0 entries" — Python's `arr[-0:]` is the whole list, so it averages
every stored record (here 10 and 20, mean 15), while the true last-0-entry
average does not exist. -/
theorem c10_counterexample :
    avg_last_n histC10 1 0 = some 15 ∧ avgLastNSpec histC10 1 0 = none := by
  constructor
  · norm_num [avg_last_n, histC10, pySliceLast]
    exact ⟨by simp, fun h => absurd h (by simp)⟩
  · rfl

theorem append_upd_apply (day : String) (rates : Nat → Option ℚ) :
    ∀ (ds : List Nat), ds.Nodup → ∀ (h : Nat → List HistoryRecord) (t : Nat),
      (ds.foldl
        (fun h d => fun x => if x = d then appendTenor (h d) day (rates d)
          else h x) h) t
        = if t ∈ ds then appendTenor (h t) day (rates t) else h t := by
  intro ds
  induction ds with
  | nil =>
      intro _ h t
      simp
  | cons d ds ih =>
      intro hnd h t
      rw [List.foldl_cons, ih (List.Nodup.of_cons hnd)]
      by_cases htd : t = d
      · subst htd
        have hd : t ∉ ds := (List.nodup_cons.mp hnd).1
        simp [hd]
      · by_cases ht : t ∈ ds
        · simp [ht, htd]
        · simp [ht, htd]

theorem appendTenor_length_le (arr : List HistoryRecord) (day : String)
    (r : Option ℚ) (hb : arr.length ≤ 30) :
    (appendTenor arr day r).length ≤ 30 := by
  cases r with
  | none => simpa [appendTenor]
  | some v =>
      simp only [appendTenor]
      split_ifs with h
      · exact hb
      · rw [pySliceLast, if_neg (by omega)]
        simp only [List.length_drop, List.length_append, List.length_cons,
          List.length_nil]
        omega

/-- C10 (amended): each tenor's market-history list stays bounded by 30
records through any `append_daily_close` (from a bounded start), and
`avg_last_n` returns `none` exactly when the tenor's list is empty; for
`n ≥ 1` it averages exactly the true last-`n` suffix (at most `n` entries).
(For `n = 0` the Python slice `arr[-0:]` makes it average the whole list —
the one point on which the original claim fails.) -/
theorem c10_bounded_history (hist : Nat → List HistoryRecord) (day : String)
    (rates : Nat → Option ℚ) (t : Nat) (n : Nat)
    (hb : ∀ d, (hist d).length ≤ 30) (hn : 1 ≤ n) :
    (append_daily_close hist day rates t).length ≤ 30 ∧
    (avg_last_n hist t n = none ↔ hist t = []) ∧
    (hist t ≠ [] → avg_last_n hist t n = avgLastNSpec hist t n) ∧
    ((hist t).drop ((hist t).length - n)).length ≤ n := by
  have hn0 : n ≠ 0 := by omega
  have hbound : (append_daily_close hist day rates t).length ≤ 30 := by
    rw [append_daily_close, append_upd_apply day rates TENORS (by decide) hist t]
    split_ifs with ht
    · exact appendTenor_length_le _ _ _ (hb t)
    · exact hb t
  by_cases he : hist t = []
  · refine ⟨hbound, ?_, fun hne => absurd he hne, ?_⟩
    · simp [avg_last_n, he]
    · rw [he]
      simp
  · have hlen1 : 1 ≤ (hist t).length := List.length_pos.mpr he
    have hlast : (hist t).drop ((hist t).length - n) ≠ [] := by
      intro h0
      have hl := congrArg List.length h0
      simp only [List.length_drop, List.length_nil] at hl
      omega
    refine ⟨hbound, ?_, ?_, ?_⟩
    · simp [avg_last_n, pySliceLast, he, hn0, hlast]
    · intro _
      simp [avg_last_n, avgLastNSpec, pySliceLast, he, hn0, hlast]
    · simp only [List.length_drop]
      omega

/-- Witness for C10 at a concrete two-record history. -/
theorem c10_witness :
    (append_daily_close histC10 "2026-01-03"
      (fun d => if d = 1 then some 30 else none) 1).length ≤ 30 ∧
    (avg_last_n histC10 1 1 = none ↔ histC10 1 = []) := by
  have h := c10_bounded_history histC10 "2026-01-03"
    (fun d => if d = 1 then some 30 else none) 1 1
    (by intro d; norm_num [histC10]) (by omega)
  exact ⟨h.1, h.2.1⟩

/-! ### Transport (C3) -/

/-- C3 evidence: with a configured token and chat id, an HTTP failure makes
`send_message` raise (`raise_for_status`), and since `main` wraps no send in
a try/except, the exception aborts the per-user loop: with two users both
due a data-unavailable warning, NO user's state gets saved; with a healthy
transport both are saved.  The transport failure thus propagates straight
into the core's control flow, contrary to the claim. -/
theorem c3_transport_failure_propagates :
    send_message "tok" "chat1" false = Except.error "HTTPError" ∧
    runUsersAbsent1D "tok" false [("chat1", ""), ("chat2", "")]
      = ([], some "HTTPError") ∧
    runUsersAbsent1D "tok" true [("chat1", ""), ("chat2", "")]
      = (["chat1", "chat2"], none) := by
  refine ⟨rfl, rfl, rfl⟩

/-! ### Per-user state machine lemmas (C8, C9) -/

theorem countNotif_nil (m : Notif) : countNotif m [] = 0 := rfl

theorem countNotif_cons (m : Notif) (ns : List Notif)
    (tss : List (List Notif)) :
    countNotif m (ns :: tss) = ns.count m + countNotif m tss := by
  simp [countNotif]

theorem countNotif_append (m : Notif) (a b : List (List Notif)) :
    countNotif m (a ++ b) = countNotif m a + countNotif m b := by
  simp [countNotif]

theorem runTrace_append (xs ys : List RunInput) (st : UserState) :
    runTrace (xs ++ ys) st = runTrace xs st ++ runTrace ys (runEnd xs st) := by
  induction xs generalizing st with
  | nil => rfl
  | cons i is ih =>
      simp only [List.cons_append, runTrace, runEnd, List.cons.injEq]
      exact ⟨trivial, ih (userStep i st).2⟩

theorem userStep_absent (i : RunInput) (st : UserState)
    (h : i.rates 1 = none) :
    userStep i st =
      if st.lastError ≠ "NO_1D" then
        ([Notif.noData], { st with lastError := "NO_1D" })
      else ([], st) := by
  rw [userStep, h]

theorem thresholdFold_foldl_count (rates : Nat → Option ℚ) (m : Notif)
    (hm : ∀ d, m ≠ Notif.threshold d) :
    ∀ (ds : List Nat) (acc : List Notif × (Nat → Bool)),
      (ds.foldl (thresholdFoldStep rates) acc).1.count m = acc.1.count m := by
  intro ds
  induction ds with
  | nil => intro acc; rfl
  | cons d ds ih =>
      intro acc
      rw [List.foldl_cons, ih]
      by_cases hd : d = 1
      · rw [thresholdFoldStep, if_pos hd]
      · rw [thresholdFoldStep, if_neg hd]
        cases hr : rates d with
        | none => rfl
        | some r =>
            simp only [List.count_append]
            have hz : (if (thresholdUpd (THRESHOLDS d) (acc.2 d) (some r)).1
                then [Notif.threshold d] else []).count m = 0 := by
              split_ifs <;> simp [List.count_cons, hm d]
            omega

theorem premiumFold_foldl_count (r1 : ℚ) (rates : Nat → Option ℚ) (m : Notif)
    (hm : ∀ d, m ≠ Notif.premium d) :
    ∀ (ds : List Nat) (acc : List Notif × (Nat → Bool)),
      (ds.foldl (premiumFoldStep r1 rates) acc).1.count m
        = acc.1.count m := by
  intro ds
  induction ds with
  | nil => intro acc; rfl
  | cons d ds ih =>
      intro acc
      rw [List.foldl_cons, ih]
      by_cases hd : d = 1
      · rw [premiumFoldStep, if_pos hd]
      · rw [premiumFoldStep, if_neg hd]
        cases hr : rates d with
        | none => rfl
        | some r =>
            simp only [List.count_append]
            have hz : (if decide (PREMIUM_SPREAD ≤ r - r1) && !acc.2 d
                then [Notif.premium d] else []).count m = 0 := by
              split_ifs <;> simp [List.count_cons, hm d]
            omega

theorem userStep_super_absent (i : RunInput) (st : UserState)
    (h : i.rates 1 = none) :
    (userStep i st).1.count Notif.super = 0 ∧
    (userStep i st).2.superSent = st.superSent := by
  rw [userStep_absent i st h]
  split_ifs <;> simp [List.count_cons]

theorem userStep_super_present (i : RunInput) (st : UserState) (r1 : ℚ)
    (h : i.rates 1 = some r1) :
    (userStep i st).1.count Notif.super
        = (if (superUpd st.superSent i.rates).1 then 1 else 0) ∧
    (userStep i st).2.superSent = (superUpd st.superSent i.rates).2 := by
  constructor
  · rw [userStep, h]
    simp only [List.count_append]
    have h1 : (if (superUpd st.superSent i.rates).1 then [Notif.super]
        else []).count Notif.super
        = (if (superUpd st.superSent i.rates).1 then 1 else 0) := by
      split_ifs <;> simp [List.count_cons]
    have h2 : ∀ b : Bool, (if b then [Notif.opportunity1d] else []).count
        Notif.super = 0 := by
      intro b
      cases b <;> simp [List.count_cons]
    have h3 : ∀ b : Bool, (if b then [Notif.digest] else []).count
        Notif.super = 0 := by
      intro b
      cases b <;> simp [List.count_cons]
    have h4 : (thresholdFold i.rates st.crossedT).1.count Notif.super = 0 := by
      rw [thresholdFold, thresholdFold_foldl_count i.rates Notif.super
        (fun d => by simp)]
      rfl
    have h5 : (premiumFold r1 i.rates st.premiumSent).1.count
        Notif.super = 0 := by
      rw [premiumFold, premiumFold_foldl_count r1 i.rates Notif.super
        (fun d => by simp)]
      rfl
    rw [h1, h2, h3, h4, h5]
    omega
  · rw [userStep, h]

theorem userStep_lastError_present (i : RunInput) (st : UserState) (r1 : ℚ)
    (h : i.rates 1 = some r1) : (userStep i st).2.lastError = "" := by
  rw [userStep, h]

theorem superUpd_sent (rates : Nat → Option ℚ) :
    superUpd true rates = (false, true) := by
  simp [superUpd]

theorem superUpd_trigger (rates : Nat → Option ℚ)
    (hc : superCond rates = true) : superUpd false rates = (true, true) := by
  rw [superUpd, if_neg (by simp)]
  rw [superCond] at hc
  cases hbest : bestRate TENORS rates with
  | none => rw [hbest] at hc; exact absurd hc (by simp)
  | some b =>
      rw [hbest] at hc
      have hcb : SUPER_HIGH ≤ b.2 := of_decide_eq_true hc
      show (if SUPER_HIGH ≤ b.2 then ((true : Bool), (true : Bool))
        else (false, false)) = (true, true)
      rw [if_pos hcb]

theorem superUpd_quiet (rates : Nat → Option ℚ)
    (hc : superCond rates = false) : superUpd false rates = (false, false) := by
  rw [superUpd, if_neg (by simp)]
  rw [superCond] at hc
  cases hbest : bestRate TENORS rates with
  | none => rfl
  | some b =>
      rw [hbest] at hc
      have hcb : ¬ SUPER_HIGH ≤ b.2 := of_decide_eq_false hc
      show (if SUPER_HIGH ≤ b.2 then ((true : Bool), (true : Bool))
        else (false, false)) = (false, false)
      rw [if_neg hcb]

theorem runTrace_super_zero_of_sent (inps : List RunInput) (st : UserState)
    (hs : st.superSent = true) :
    countNotif Notif.super (runTrace inps st) = 0 := by
  induction inps generalizing st with
  | nil => rfl
  | cons i is ih =>
      simp only [runTrace]
      rw [countNotif_cons]
      cases h : i.rates 1 with
      | none =>
          obtain ⟨hc, hsame⟩ := userStep_super_absent i st h
          rw [hc, ih (userStep i st).2 (hsame.trans hs)]
      | some r1 =>
          obtain ⟨hc, hsame⟩ := userStep_super_present i st r1 h
          rw [hs] at hc hsame
          rw [superUpd_sent] at hc hsame
          simp only [if_neg (by simp : ¬ false = true)] at hc
          rw [hc, ih (userStep i st).2 hsame]

theorem runTrace_super_zero_pre (inps : List RunInput) (st : UserState)
    (hs : st.superSent = false)
    (hpre : ∀ i ∈ inps, i.rates 1 = none ∨ superCond i.rates = false) :
    countNotif Notif.super (runTrace inps st) = 0 ∧
    (runEnd inps st).superSent = false := by
  induction inps generalizing st with
  | nil => exact ⟨rfl, hs⟩
  | cons i is ih =>
      simp only [runTrace, runEnd]
      rw [countNotif_cons]
      have htail : ∀ x ∈ is, x.rates 1 = none ∨ superCond x.rates = false :=
        fun x hx => hpre x (List.mem_cons_of_mem _ hx)
      cases h : i.rates 1 with
      | none =>
          obtain ⟨hc, hsame⟩ := userStep_super_absent i st h
          obtain ⟨ht1, ht2⟩ := ih (userStep i st).2 (hsame.trans hs) htail
          rw [hc, ht1]
          exact ⟨rfl, ht2⟩
      | some r1 =>
          rcases hpre i (List.mem_cons_self _ _) with habs | hcond
          · rw [habs] at h; exact absurd h (by simp)
          · obtain ⟨hc, hsame⟩ := userStep_super_present i st r1 h
            rw [hs, superUpd_quiet i.rates hcond] at hc hsame
            simp only [if_neg (by simp : ¬ false = true)] at hc
            obtain ⟨ht1, ht2⟩ := ih (userStep i st).2 hsame htail
            rw [hc, ht1]
            exact ⟨rfl, ht2⟩

/-- C8: starting from an un-fired one-shot flag, over any run sequence in
which the extreme-threshold condition first holds (with 1D data present) at
some run, the "super opportunity" notification is emitted exactly once in
the whole sequence — on that run — no matter how values oscillate
afterwards; moreover no step of the machine ever emits another super or
clears the persisted flag once it is set. -/
theorem c8_super_one_shot (pre post : List RunInput) (trig : RunInput)
    (st : UserState) (hst : st.superSent = false)
    (hpre : ∀ i ∈ pre, i.rates 1 = none ∨ superCond i.rates = false)
    (h1 : ∃ r, trig.rates 1 = some r) (hc : superCond trig.rates = true) :
    countNotif Notif.super (runTrace (pre ++ trig :: post) st) = 1 ∧
    (∀ (i : RunInput) (s : UserState), s.superSent = true →
      ((userStep i s).2).superSent = true) ∧
    (∀ (i : RunInput) (s : UserState), s.superSent = true →
      (userStep i s).1.count Notif.super = 0) := by
  have hnever : ∀ (i : RunInput) (s : UserState), s.superSent = true →
      ((userStep i s).2).superSent = true ∧
      (userStep i s).1.count Notif.super = 0 := by
    intro i s hs
    cases h : i.rates 1 with
    | none =>
        obtain ⟨hc0, hsame⟩ := userStep_super_absent i s h
        exact ⟨hsame.trans hs, hc0⟩
    | some r =>
        obtain ⟨hc0, hsame⟩ := userStep_super_present i s r h
        rw [hs, superUpd_sent] at hc0 hsame
        simp only [if_neg (by simp : ¬ false = true)] at hc0
        exact ⟨hsame, hc0⟩
  refine ⟨?_, fun i s hs => (hnever i s hs).1, fun i s hs => (hnever i s hs).2⟩
  rw [runTrace_append, countNotif_append]
  obtain ⟨hc0, hsend⟩ := runTrace_super_zero_pre pre st hst hpre
  rw [hc0]
  obtain ⟨r1, hr1⟩ := h1
  simp only [runTrace]
  rw [countNotif_cons]
  obtain ⟨hcnt, hsent⟩ := userStep_super_present trig (runEnd pre st) r1 hr1
  rw [hsend, superUpd_trigger trig.rates hc] at hcnt hsent
  rw [hcnt, if_pos rfl,
    runTrace_super_zero_of_sent post (userStep trig (runEnd pre st)).2 hsent]

/-- Witness for C8: a quiet run then a run with 7D at 50 ≥ 45 emits exactly
one super notification. -/
theorem c8_witness :
    countNotif Notif.super (runTrace ([runA] ++ runB :: []) initialState)
      = 1 := by
  have h := c8_super_one_shot [runA] [] runB initialState rfl
    (by
      intro i hi
      simp only [List.mem_singleton] at hi
      subst hi
      right
      decide)
    ⟨38, rfl⟩ (by decide)
  exact h.1

/-- C9: on a run with the 1D observation absent, the data-unavailable
notification fires only when the persisted error flag is unset; two
consecutive absent runs produce exactly one notification; an absent run
leaves every band/transition/digest/intraday field of the state untouched;
and the flag is cleared again on the next successful observation. -/
theorem c9_data_unavailable (i1 i2 : RunInput) (st : UserState)
    (h1 : i1.rates 1 = none) (h2 : i2.rates 1 = none)
    (hflag : st.lastError ≠ "NO_1D") :
    countNotif Notif.noData (runTrace [i1, i2] st) = 1 ∧
    (∀ (i : RunInput) (s : UserState), i.rates 1 = none →
      ((userStep i s).2.crossed1d = s.crossed1d ∧
       (userStep i s).2.crossedT = s.crossedT ∧
       (userStep i s).2.premiumSent = s.premiumSent ∧
       (userStep i s).2.superSent = s.superSent ∧
       (userStep i s).2.lastDaily = s.lastDaily ∧
       (userStep i s).2.intraday = s.intraday ∧
       (userStep i s).2.lastRates = s.lastRates)) ∧
    (∀ (i : RunInput) (s : UserState), i.rates 1 = none →
      s.lastError = "NO_1D" → (userStep i s).1 = []) ∧
    (∀ (i : RunInput) (s : UserState) (r : ℚ), i.rates 1 = some r →
      (userStep i s).2.lastError = "") := by
  have huntouched : ∀ (i : RunInput) (s : UserState), i.rates 1 = none →
      ((userStep i s).2.crossed1d = s.crossed1d ∧
       (userStep i s).2.crossedT = s.crossedT ∧
       (userStep i s).2.premiumSent = s.premiumSent ∧
       (userStep i s).2.superSent = s.superSent ∧
       (userStep i s).2.lastDaily = s.lastDaily ∧
       (userStep i s).2.intraday = s.intraday ∧
       (userStep i s).2.lastRates = s.lastRates) := by
    intro i s h
    rw [userStep_absent i s h]
    split_ifs <;> simp
  have hsilent : ∀ (i : RunInput) (s : UserState), i.rates 1 = none →
      s.lastError = "NO_1D" → (userStep i s).1 = [] := by
    intro i s h hE
    rw [userStep_absent i s h, if_neg (by simpa using hE)]
  refine ⟨?_, huntouched, hsilent,
    fun i s r h => userStep_lastError_present i s r h⟩
  have hstep1 : userStep i1 st
      = ([Notif.noData], { st with lastError := "NO_1D" }) := by
    rw [userStep_absent i1 st h1, if_pos hflag]
  simp only [runTrace]
  rw [hstep1]
  have hstep2 : userStep i2 { st with lastError := "NO_1D" }
      = ([], { st with lastError := "NO_1D" }) := by
    rw [userStep_absent i2 _ h2, if_neg (by simp)]
  rw [hstep2]
  rw [countNotif_cons, countNotif_cons, countNotif_nil]
  simp [List.count_cons]

/-- Witness for C9: two consecutive scrape failures from a fresh state emit
exactly one data-unavailable notification. -/
theorem c9_witness :
    countNotif Notif.noData (runTrace [runN, runN] initialState) = 1 :=
  (c9_data_unavailable runN runN initialState rfl rfl (by decide)).1

end Caucion
